import Mathlib

/-!
Shallow embedding of the async task scheduler of `rust_os`
(`src/task/mod.rs`, `src/task/executor.rs`, `src/task/keyboard.rs`),
together with proofs of the specified properties.

Modelling conventions:
* machine integers are `Nat` with explicit `% 2^64` where overflow matters;
* a Rust function that can panic is modelled as returning `Option`
  (`none` = panic);
* the crossbeam `ArrayQueue` (constructed with capacity 100 at both use
  sites) is a Lean list with a bounded push;
* `BTreeMap<TaskId, Task>` is an association list keyed by `Nat`;
* a future (`Pin<Box<dyn Future<Output = ()>>>`) is a deterministic state
  machine `future : Nat → PollRes × Nat` together with its current state;
  `poll` applies `future` to the current state and stores the next state.
-/

namespace RustOS

/-- Result of polling a future with output `()`: `Poll<()>` in the source. -/
inductive PollRes : Type where
  | Ready : PollRes
  | Pending : PollRes
deriving DecidableEq, Repr

/-- Capacity both `ArrayQueue`s are constructed with: the executor's
`task_queue` (`ArrayQueue::new(100)` in `Executor::new`) and the keyboard
`SCANCODE_QUEUE` (`ArrayQueue::new(100)` in `ScancodeStream::new`). -/
def QUEUE_CAPACITY : Nat := 100

/-- Modulus of a `u64` / `AtomicU64`. -/
def U64_MOD : Nat := 2 ^ 64

/-- The `ArrayQueue::push` operation: appends at the back when below
capacity, returns `none` (the `Err` case) when the queue is full. -/
def queuePush (q : List Nat) (x : Nat) : Option (List Nat) :=
  if q.length < QUEUE_CAPACITY then some (q ++ [x]) else none

/-- The `ArrayQueue::pop` operation: takes from the front. -/
def queuePop (q : List Nat) : Option (Nat × List Nat) :=
  match q with
  | [] => none
  | x :: rest => some (x, rest)

/-- Repeated `ArrayQueue::push`, dropping elements once the queue is full
(used to model a burst of producer pushes). -/
def pushMany (q : List Nat) (xs : List Nat) : List Nat :=
  xs.foldl (fun acc x =>
    match queuePush acc x with
    | some acc2 => acc2
    | none => acc) q

/-- `TaskId::new` (`src/task/mod.rs`): `NEXT_ID.fetch_add(1, Relaxed)`.
The argument is the current value of the `AtomicU64` counter; the result is
the returned identifier (the old value) and the new counter value. -/
def TaskId.new (next_id : Nat) : Nat × Nat :=
  (next_id % U64_MOD, (next_id % U64_MOD + 1) % U64_MOD)

/-- Identifiers produced by `n` successive calls to `TaskId::new`, starting
from counter value `c`. -/
def genIds : Nat → Nat → List Nat
  | _, 0 => []
  | c, n + 1 =>
    let p := TaskId.new c
    p.1 :: genIds p.2 n

/-- A `Task` (`src/task/mod.rs`): a `TaskId` plus a pinned boxed future,
the future modelled as a deterministic state machine with current state
`state` and transition function `future`. -/
structure Task : Type where
  id : Nat
  state : Nat
  future : Nat → PollRes × Nat

/-- `Task::poll`: advance the wrapped future one step. -/
def Task.poll (t : Task) : PollRes × Task :=
  let p := t.future t.state
  (p.1, { t with state := p.2 })

/- Association-list operations standing for `BTreeMap<TaskId, Task>`. -/

/-- Lookup by key (first matching entry). -/
def lookupA : List (Nat × Task) → Nat → Option Task
  | [], _ => none
  | (k, v) :: rest, id => if k = id then some v else lookupA rest id

/-- Remove every entry with the given key (`BTreeMap::remove`). -/
def eraseA : List (Nat × Task) → Nat → List (Nat × Task)
  | [], _ => []
  | (k, v) :: rest, id =>
    if k = id then eraseA rest id else (k, v) :: eraseA rest id

/-- Replace the value at a key, leaving other entries alone (the in-place
mutation of a looked-up `&mut Task`). -/
def updateA : List (Nat × Task) → Nat → Task → List (Nat × Task)
  | [], _, _ => []
  | (k, v) :: rest, id, t =>
    if k = id then (k, t) :: updateA rest id t else (k, v) :: updateA rest id t

/-- `BTreeMap::insert`: returns the previous value at the key (if any)
together with the updated map. -/
def insertA (m : List (Nat × Task)) (k : Nat) (v : Task) :
    Option Task × List (Nat × Task) :=
  (lookupA m k, (k, v) :: eraseA m k)

/- The waker cache `BTreeMap<TaskId, Waker>` is modelled by its key set:
the cached value for key `id` is always `TaskWaker::new(id, task_queue)`,
determined by the key and the shared queue handle. -/

/-- `waker_cache.entry(id).or_insert_with(...)`: record the key if absent. -/
def cacheInsert (c : List Nat) (k : Nat) : List Nat :=
  if k ∈ c then c else c ++ [k]

/-- `waker_cache.remove(id)`. -/
def cacheErase : List Nat → Nat → List Nat
  | [], _ => []
  | x :: rest, k => if x = k then cacheErase rest k else x :: cacheErase rest k

theorem lookupA_eraseA_self (m : List (Nat × Task)) (k : Nat) :
    lookupA (eraseA m k) k = none := by
  induction m with
  | nil => rfl
  | cons p rest ih =>
    obtain ⟨k1, v1⟩ := p
    by_cases h : k1 = k
    · simpa [eraseA, h] using ih
    · simp [eraseA, lookupA, h, ih]

theorem lookupA_eraseA_ne (m : List (Nat × Task)) (k j : Nat) (h : j ≠ k) :
    lookupA (eraseA m k) j = lookupA m j := by
  induction m with
  | nil => rfl
  | cons p rest ih =>
    obtain ⟨k1, v1⟩ := p
    by_cases h1 : k1 = k
    · subst h1
      simp [eraseA, lookupA, Ne.symm h, ih]
    · by_cases h2 : k1 = j
      · subst h2
        simp [eraseA, lookupA, h1]
      · simp [eraseA, lookupA, h1, h2, ih]

theorem lookupA_updateA_ne (m : List (Nat × Task)) (k j : Nat) (t : Task)
    (h : j ≠ k) : lookupA (updateA m k t) j = lookupA m j := by
  induction m with
  | nil => rfl
  | cons p rest ih =>
    obtain ⟨k1, v1⟩ := p
    by_cases h1 : k1 = k
    · subst h1
      simp [updateA, lookupA, Ne.symm h, ih]
    · by_cases h2 : k1 = j
      · subst h2
        simp [updateA, lookupA, h1]
      · simp [updateA, lookupA, h1, h2, ih]

theorem lookupA_updateA_self (m : List (Nat × Task)) (k : Nat) (t0 t : Task)
    (h : lookupA m k = some t0) : lookupA (updateA m k t) k = some t := by
  induction m with
  | nil => simp [lookupA] at h
  | cons p rest ih =>
    obtain ⟨k1, v1⟩ := p
    by_cases h1 : k1 = k
    · simp [updateA, lookupA, h1]
    · simp [lookupA, h1] at h
      simp [updateA, lookupA, h1, ih h]

theorem lookupA_updateA_isSome (m : List (Nat × Task)) (k j : Nat) (t : Task) :
    (lookupA (updateA m k t) j).isSome = (lookupA m j).isSome := by
  induction m with
  | nil => rfl
  | cons p rest ih =>
    obtain ⟨k1, v1⟩ := p
    by_cases h1 : k1 = k
    · subst h1
      by_cases h2 : k1 = j
      · simp [updateA, lookupA, h2]
      · simp [updateA, lookupA, h2, ih]
    · by_cases h2 : k1 = j
      · subst h2
        simp [updateA, lookupA, h1]
      · simp [updateA, lookupA, h1, h2, ih]

theorem mem_cacheInsert (c : List Nat) (k j : Nat) :
    j ∈ cacheInsert c k ↔ j ∈ c ∨ j = k := by
  by_cases h : k ∈ c
  · rw [cacheInsert, if_pos h]
    constructor
    · exact Or.inl
    · rintro (hj | rfl)
      · exact hj
      · exact h
  · rw [cacheInsert, if_neg h]
    simp [List.mem_append]

theorem mem_cacheErase (c : List Nat) (k j : Nat) :
    j ∈ cacheErase c k ↔ j ∈ c ∧ j ≠ k := by
  induction c with
  | nil => simp [cacheErase]
  | cons x rest ih =>
    by_cases h : x = k
    · subst h
      simp only [cacheErase, if_pos rfl, List.mem_cons, ih]
      tauto
    · simp only [cacheErase, if_neg h, List.mem_cons, ih]
      constructor
      · rintro (rfl | ⟨hj, hk⟩)
        · exact ⟨Or.inl rfl, h⟩
        · exact ⟨Or.inr hj, hk⟩
      · rintro ⟨(rfl | hj), hk⟩
        · exact Or.inl rfl
        · exact Or.inr ⟨hj, hk⟩

theorem pushMany_of_le (xs q : List Nat)
    (h : q.length + xs.length ≤ QUEUE_CAPACITY) : pushMany q xs = q ++ xs := by
  induction xs generalizing q with
  | nil => simp [pushMany]
  | cons x rest ih =>
    have hlt : q.length < QUEUE_CAPACITY := by
      simp [List.length_cons] at h
      omega
    have hrec : (q ++ [x]).length + rest.length ≤ QUEUE_CAPACITY := by
      simp [List.length_append] at h ⊢
      omega
    have : pushMany q (x :: rest) = pushMany (q ++ [x]) rest := by
      simp [pushMany, queuePush, hlt]
    rw [this, ih _ hrec]
    simp

/-! ### Executor (`src/task/executor.rs`) -/

/-- `TaskWaker::wake_task`: `self.task_queue.push(self.task_id).expect("task_queue full")`.
Result `none` models the panic on a full ready queue. -/
def TaskWaker.wake_task (task_id : Nat) (task_queue : List Nat) :
    Option (List Nat) :=
  queuePush task_queue task_id

/-- The `Executor` struct: task table, ready queue, waker cache
(the cache modelled by its key set, see above). -/
structure Executor : Type where
  tasks : List (Nat × Task)
  task_queue : List Nat
  waker_cache : List Nat

/-- `Executor::new`: empty table, empty queue (capacity 100), empty cache. -/
def Executor.new : Executor :=
  { tasks := [], task_queue := [], waker_cache := [] }

/-- `Executor::spawn`: insert the task under its id (panicking if the id was
already present), then push the id onto the ready queue (panicking if the
queue is full). `none` models either panic. -/
def Executor.spawn (e : Executor) (task : Task) : Option Executor :=
  let task_id := task.id
  let p := insertA e.tasks task.id task
  if p.1.isSome then none
  else
    match queuePush e.task_queue task_id with
    | none => none
    | some q =>
      some { tasks := p.2, task_queue := q, waker_cache := e.waker_cache }

/-- Result of one `run_ready_tasks` pass: the final task table and waker
cache, plus an instrumentation log recording, for each poll performed,
the task id, the future's state before the poll, and the poll result.
The queue is fully drained (polled futures in this codebase never push onto
the ready queue; only `wake()` from interrupt context does). -/
structure RunResult : Type where
  tasks : List (Nat × Task)
  waker_cache : List Nat
  log : List (Nat × Nat × PollRes)

/-- The `while let Some(task_id) = task_queue.pop()` loop of
`Executor::run_ready_tasks`: look the id up in the table (skip if absent),
fetch-or-create the cached waker, poll the task; on `Ready` remove task and
cached waker, on `Pending` store the advanced task back. -/
def runReadyLoop : List Nat → List (Nat × Task) → List Nat → RunResult
  | [], tasks, cache => ⟨tasks, cache, []⟩
  | task_id :: restQueue, tasks, cache =>
    match lookupA tasks task_id with
    | none => runReadyLoop restQueue tasks cache
    | some task =>
      let cache1 := cacheInsert cache task_id
      let p := Task.poll task
      match p.1 with
      | PollRes.Ready =>
        let r := runReadyLoop restQueue (eraseA tasks task_id)
          (cacheErase cache1 task_id)
        ⟨r.tasks, r.waker_cache, (task_id, task.state, PollRes.Ready) :: r.log⟩
      | PollRes.Pending =>
        let r := runReadyLoop restQueue (updateA tasks task_id p.2) cache1
        ⟨r.tasks, r.waker_cache, (task_id, task.state, PollRes.Pending) :: r.log⟩

/-- `Executor::run_ready_tasks` as a state transformer on the executor. -/
def Executor.run_ready_tasks (e : Executor) : Executor :=
  let r := runReadyLoop e.task_queue e.tasks e.waker_cache
  { tasks := r.tasks, task_queue := [], waker_cache := r.waker_cache }

/-- Outcome of `Executor::sleep_if_idle`: whether the processor was halted,
and whether interrupt delivery is enabled afterwards. -/
structure IdleResult : Type where
  halted : Bool
  interrupts_enabled : Bool
deriving DecidableEq, Repr

/-- `Executor::sleep_if_idle`. Because interrupt handlers may push onto the
ready queue concurrently, the two reads of `task_queue` are modelled by two
snapshots: `q1` is the queue contents at the first `is_empty` check and
`q2` at the second check, taken after `interrupts::disable()` (after which
the contents can no longer change). Interrupts are enabled on entry. If both
checks see an empty queue, the atomic `enable_and_hlt` runs (halt with
interrupts re-enabled); if the second check sees a non-empty queue,
`interrupts::enable()` runs and the function returns without halting. -/
def Executor.sleep_if_idle (q1 q2 : List Nat) : IdleResult :=
  if q1.isEmpty then
    if q2.isEmpty then
      { halted := true, interrupts_enabled := true }
    else
      { halted := false, interrupts_enabled := true }
  else
    { halted := false, interrupts_enabled := true }

/-! ### Keyboard event bridge (`src/task/keyboard.rs`) -/

/-- A registered waker. In the source this is a `core::task::Waker`; the
model identifies wakers by a number, which is all the bridge's bookkeeping
needs. -/
abbrev Waker := Nat

/-- The module-level state of the keyboard bridge: `SCANCODE_QUEUE`
(a `OnceCell<ArrayQueue<u8>>`, `none` while uninitialized) and `WAKER`
(an `AtomicWaker` slot). -/
structure KeyboardState : Type where
  scancode_queue : Option (List Nat)
  waker : Option Waker
deriving DecidableEq, Repr

/-- Outcome of `add_scancode`: the new bridge state, the diagnostic printed
(if any: a non-fatal `println!` warning), and the waker that was woken
(if any; `AtomicWaker::wake` takes the registered waker and invokes it). -/
structure AddOutcome : Type where
  state : KeyboardState
  warning : Option String
  woken : Option Waker
deriving DecidableEq, Repr

/-- `add_scancode` (`src/task/keyboard.rs`): called from the keyboard
interrupt handler. If the queue is uninitialized, print a warning. If the
push fails (queue full), drop the scancode and print a warning. On success,
wake the registered waker, if any. -/
def add_scancode (s : KeyboardState) (scancode : Nat) : AddOutcome :=
  match s.scancode_queue with
  | none =>
    { state := s, warning := some "WARNING: scancode queue uninitialized",
      woken := none }
  | some queue =>
    match queuePush queue scancode with
    | none =>
      { state := s,
        warning := some "WARNING: scancode queue full; dropping keyboard input",
        woken := none }
    | some q2 =>
      { state := { scancode_queue := some q2, waker := none },
        warning := none, woken := s.waker }

/-- `ScancodeStream::new`: `SCANCODE_QUEUE.try_init_once(|| ArrayQueue::new(100))
.expect(...)`. The first call initializes the queue; a second call panics
(`none`). -/
def ScancodeStream.new (s : KeyboardState) : Option KeyboardState :=
  match s.scancode_queue with
  | none => some { s with scancode_queue := some [] }
  | some _ => none

/-- `Poll<Option<u8>>`, the return type of `poll_next`. -/
inductive PollResult (α : Type) : Type where
  | Ready : α → PollResult α
  | Pending : PollResult α
deriving DecidableEq, Repr

/-- `ScancodeStream::poll_next`. `none` models the
`expect("not initialized")` panic. The parameter `mid` lists the scancodes
that interrupt handlers enqueue in the race window between the first
(empty) pop and the waker registration; the purely sequential execution is
`mid = []`. Fast path: a non-empty first pop returns `Ready` at once.
Slow path: register the context's waker `w` (overwriting the slot), pop
again; a non-empty second pop takes the registration back out before
returning `Ready`; otherwise return `Pending` with the registration left
in place. -/
def ScancodeStream.poll_next (s : KeyboardState) (w : Waker)
    (mid : List Nat) : Option (KeyboardState × PollResult (Option Nat)) :=
  match s.scancode_queue with
  | none => none
  | some queue =>
    match queuePop queue with
    | some (scancode, q2) =>
      some ({ s with scancode_queue := some q2 },
        PollResult.Ready (some scancode))
    | none =>
      let q1 := pushMany queue mid
      let s1 : KeyboardState := { scancode_queue := some q1, waker := some w }
      match queuePop q1 with
      | some (scancode, q2) =>
        some ({ scancode_queue := some q2, waker := none },
          PollResult.Ready (some scancode))
      | none => some (s1, PollResult.Pending)

/-! ### Invariants of the run loop -/

/-- Poll-log entries of a given task id: pairs of (state before the poll,
poll result). -/
def logFor (id : Nat) (lg : List (Nat × Nat × PollRes)) : List (Nat × PollRes) :=
  lg.filterMap (fun e => if e.1 = id then some e.2 else none)

theorem runReadyLoop_absent (q : List Nat) (tasks : List (Nat × Task))
    (cache : List Nat) (id : Nat)
    (ht : lookupA tasks id = none) :
    lookupA (runReadyLoop q tasks cache).tasks id = none ∧
    logFor id (runReadyLoop q tasks cache).log = [] := by
  induction q generalizing tasks cache with
  | nil => exact ⟨ht, rfl⟩
  | cons tid rest ih =>
    by_cases hid : tid = id
    · subst hid
      simp only [runReadyLoop, ht]
      exact ih tasks cache ht
    · cases hl : lookupA tasks tid with
      | none =>
        simp only [runReadyLoop, hl]
        exact ih tasks cache ht
      | some task =>
        rcases hfut : task.future task.state with ⟨res, s2⟩
        cases res with
        | Ready =>
          have ht2 : lookupA (eraseA tasks tid) id = none := by
            rw [lookupA_eraseA_ne tasks tid id (fun h => hid h.symm)]
            exact ht
          have hrec := ih (eraseA tasks tid)
            (cacheErase (cacheInsert cache tid) tid) ht2
          simp only [runReadyLoop, hl, Task.poll, hfut]
          refine ⟨hrec.1, ?_⟩
          simp only [logFor, List.filterMap_cons, if_neg hid]
          exact hrec.2
        | Pending =>
          have ht2 : lookupA (updateA tasks tid { task with state := s2 }) id = none := by
            rw [lookupA_updateA_ne tasks tid id _ (fun h => hid h.symm)]
            exact ht
          have hrec := ih (updateA tasks tid { task with state := s2 })
            (cacheInsert cache tid) ht2
          simp only [runReadyLoop, hl, Task.poll, hfut]
          refine ⟨hrec.1, ?_⟩
          simp only [logFor, List.filterMap_cons, if_neg hid]
          exact hrec.2

theorem runReadyLoop_absent_cache (q : List Nat) (tasks : List (Nat × Task))
    (cache : List Nat) (id : Nat)
    (ht : lookupA tasks id = none) (hc : id ∉ cache) :
    id ∉ (runReadyLoop q tasks cache).waker_cache := by
  induction q generalizing tasks cache with
  | nil => exact hc
  | cons tid rest ih =>
    by_cases hid : tid = id
    · subst hid
      simp only [runReadyLoop, ht]
      exact ih tasks cache ht hc
    · cases hl : lookupA tasks tid with
      | none =>
        simp only [runReadyLoop, hl]
        exact ih tasks cache ht hc
      | some task =>
        rcases hfut : task.future task.state with ⟨res, s2⟩
        cases res with
        | Ready =>
          have ht2 : lookupA (eraseA tasks tid) id = none := by
            rw [lookupA_eraseA_ne tasks tid id (fun h => hid h.symm)]
            exact ht
          have hc2 : id ∉ cacheErase (cacheInsert cache tid) tid := by
            intro hmem
            have h1 := (mem_cacheErase (cacheInsert cache tid) tid id).mp hmem
            rcases (mem_cacheInsert cache tid id).mp h1.1 with h' | h'
            · exact hc h'
            · exact hid h'.symm
          simp only [runReadyLoop, hl, Task.poll, hfut]
          exact ih _ _ ht2 hc2
        | Pending =>
          have ht2 : lookupA (updateA tasks tid { task with state := s2 }) id = none := by
            rw [lookupA_updateA_ne tasks tid id _ (fun h => hid h.symm)]
            exact ht
          have hc2 : id ∉ cacheInsert cache tid := by
            intro hmem
            rcases (mem_cacheInsert cache tid id).mp hmem with h' | h'
            · exact hc h'
            · exact hid h'.symm
          simp only [runReadyLoop, hl, Task.poll, hfut]
          exact ih _ _ ht2 hc2

theorem runReadyLoop_untouched (q : List Nat) (tasks : List (Nat × Task))
    (cache : List Nat) (id : Nat) (t : Task)
    (hq : id ∉ q) (ht : lookupA tasks id = some t) :
    lookupA (runReadyLoop q tasks cache).tasks id = some t := by
  induction q generalizing tasks cache with
  | nil => exact ht
  | cons tid rest ih =>
    have hid : id ≠ tid := fun h => hq (h ▸ List.mem_cons_self tid rest)
    have hrest : id ∉ rest := fun h => hq (List.mem_cons_of_mem tid h)
    cases hl : lookupA tasks tid with
    | none =>
      simp only [runReadyLoop, hl]
      exact ih tasks cache hrest ht
    | some task =>
      rcases hfut : task.future task.state with ⟨res, s2⟩
      cases res with
      | Ready =>
        have ht2 : lookupA (eraseA tasks tid) id = some t := by
          rw [lookupA_eraseA_ne tasks tid id hid]
          exact ht
        simp only [runReadyLoop, hl, Task.poll, hfut]
        exact ih _ _ hrest ht2
      | Pending =>
        have ht2 : lookupA (updateA tasks tid { task with state := s2 }) id = some t := by
          rw [lookupA_updateA_ne tasks tid id _ hid]
          exact ht
        simp only [runReadyLoop, hl, Task.poll, hfut]
        exact ih _ _ hrest ht2

theorem runReadyLoop_cache_subset (q : List Nat) (tasks : List (Nat × Task))
    (cache : List Nat)
    (h : ∀ id ∈ cache, (lookupA tasks id).isSome = true) :
    ∀ id ∈ (runReadyLoop q tasks cache).waker_cache,
      (lookupA (runReadyLoop q tasks cache).tasks id).isSome = true := by
  induction q generalizing tasks cache with
  | nil => exact h
  | cons tid rest ih =>
    cases hl : lookupA tasks tid with
    | none =>
      simp only [runReadyLoop, hl]
      exact ih tasks cache h
    | some task =>
      rcases hfut : task.future task.state with ⟨res, s2⟩
      cases res with
      | Ready =>
        simp only [runReadyLoop, hl, Task.poll, hfut]
        apply ih
        intro id hid
        have h1 := (mem_cacheErase (cacheInsert cache tid) tid id).mp hid
        have h2 := (mem_cacheInsert cache tid id).mp h1.1
        rw [lookupA_eraseA_ne tasks tid id h1.2]
        rcases h2 with h' | h'
        · exact h id h'
        · exact absurd h' h1.2
      | Pending =>
        simp only [runReadyLoop, hl, Task.poll, hfut]
        apply ih
        intro id hid
        rw [lookupA_updateA_isSome]
        rcases (mem_cacheInsert cache tid id).mp hid with h' | h'
        · exact h id h'
        · rw [h', hl]
          rfl

/-! ### Sample tasks used in witnesses and counterexamples -/

/-- A task whose future completes (returns `Ready`) on its first poll. -/
def readyTask : Task :=
  { id := 3, state := 0, future := fun s => (PollRes.Ready, s) }

/-- A task whose future is forever `Pending` and never changes state. -/
def pendTask : Task :=
  { id := 7, state := 0, future := fun s => (PollRes.Pending, s) }

/-- Number of `Ready` results in a poll log. -/
def readyCount (l : List (Nat × PollRes)) : Nat :=
  (l.filter (fun e => e.2 == PollRes.Ready)).length

/-! ### Claim theorems -/

theorem genIds_eq_range' (n c : Nat) (h : c + n ≤ U64_MOD) :
    genIds c n = List.range' c n := by
  induction n generalizing c with
  | zero => rfl
  | succ n ih =>
    have hc : c < U64_MOD := Nat.lt_of_lt_of_le (Nat.lt_add_of_pos_right (Nat.succ_pos n)) h
    have hcm : c % U64_MOD = c := Nat.mod_eq_of_lt hc
    rcases Nat.lt_or_ge (c + 1) U64_MOD with h1 | h1
    · have hm : (c + 1) % U64_MOD = c + 1 := Nat.mod_eq_of_lt h1
      simp only [genIds, TaskId.new, hcm, hm]
      rw [ih (c + 1) (by omega)]
      simp [List.range']
    · have hn : n = 0 := by omega
      subst hn
      simp [genIds, TaskId.new, hcm, List.range']

/-- C4: `n` successive calls to `TaskId::new` starting from the initial
counter value 0 yield the identifiers `0, 1, …, n-1` in assignment order:
pairwise distinct, strictly monotone, starting at 0 (wrap-around can only
occur after `2^64` calls, so it is excluded by the hypothesis). -/
theorem task_id_new_distinct_monotonic (n : Nat) (h : n ≤ U64_MOD) :
    genIds 0 n = List.range n ∧ (genIds 0 n).Nodup ∧
    (genIds 0 n).Pairwise (· < ·) := by
  have he : genIds 0 n = List.range n := by
    rw [genIds_eq_range' n 0 (by omega), List.range_eq_range']
  refine ⟨he, ?_, ?_⟩
  · rw [he]
    exact List.nodup_range n
  · rw [he]
    exact List.pairwise_lt_range n

theorem task_id_new_distinct_monotonic_witness :
    genIds 0 5 = List.range 5 ∧ (genIds 0 5).Nodup ∧
    (genIds 0 5).Pairwise (· < ·) :=
  task_id_new_distinct_monotonic 5 (by norm_num [U64_MOD])

/-- C2: `sleep_if_idle` never halts the processor when the ready queue is
observed non-empty: a halt implies both emptiness checks (before and after
disabling interrupts) saw an empty queue, and if the second check sees a
non-empty queue the function re-enables interrupts and returns without
halting. -/
theorem sleep_if_idle_no_halt_when_nonempty (q1 q2 : List Nat) :
    ((Executor.sleep_if_idle q1 q2).halted = true → q1 = [] ∧ q2 = []) ∧
    (q2 ≠ [] → (Executor.sleep_if_idle q1 q2).halted = false ∧
      (Executor.sleep_if_idle q1 q2).interrupts_enabled = true) := by
  rcases q1 with _ | ⟨a, q1⟩ <;> rcases q2 with _ | ⟨b, q2⟩ <;>
    simp [Executor.sleep_if_idle]

theorem sleep_if_idle_no_halt_when_nonempty_witness :
    (Executor.sleep_if_idle [] [1]).halted = false ∧
    (Executor.sleep_if_idle [] [1]).interrupts_enabled = true :=
  (sleep_if_idle_no_halt_when_nonempty [] [1]).2 (by decide)

/-- C5: `spawn` on a table not containing the task's id inserts the task
under its id and pushes the id onto the ready queue (when the queue is
below capacity), raising no error; it panics exactly when the id is
already present in the task table. -/
theorem spawn_inserts_enqueues_panics_iff_dup (e : Executor) (task : Task)
    (hcap : e.task_queue.length < QUEUE_CAPACITY) :
    (lookupA e.tasks task.id = none →
      ∃ e2, e.spawn task = some e2 ∧
        lookupA e2.tasks task.id = some task ∧
        e2.task_queue = e.task_queue ++ [task.id] ∧
        e2.waker_cache = e.waker_cache) ∧
    (lookupA e.tasks task.id ≠ none → e.spawn task = none) := by
  constructor
  · intro h
    refine ⟨{ tasks := (task.id, task) :: eraseA e.tasks task.id,
              task_queue := e.task_queue ++ [task.id],
              waker_cache := e.waker_cache }, ?_, ?_, rfl, rfl⟩
    · simp [Executor.spawn, insertA, h, queuePush, hcap]
    · simp [lookupA]
  · intro h
    have hs : (lookupA e.tasks task.id).isSome = true :=
      Option.ne_none_iff_isSome.mp h
    simp [Executor.spawn, insertA, hs]

theorem spawn_inserts_enqueues_panics_iff_dup_witness :
    ∃ e2, Executor.new.spawn readyTask = some e2 ∧
      lookupA e2.tasks readyTask.id = some readyTask ∧
      e2.task_queue = Executor.new.task_queue ++ [readyTask.id] ∧
      e2.waker_cache = Executor.new.waker_cache :=
  (spawn_inserts_enqueues_panics_iff_dup Executor.new readyTask
    (by norm_num [Executor.new, QUEUE_CAPACITY])).1 rfl

/-- C8: popping a ready-queue entry whose id has no entry in the task table
is a silent no-op: no task is polled, no error is raised, and the pass
continues with the remaining queue entries over unchanged tables. -/
theorem stale_pop_is_silent_noop (tasks : List (Nat × Task))
    (restQueue cache : List Nat) (id : Nat)
    (h : lookupA tasks id = none) :
    runReadyLoop (id :: restQueue) tasks cache =
      runReadyLoop restQueue tasks cache := by
  simp [runReadyLoop, h]

theorem stale_pop_is_silent_noop_witness :
    runReadyLoop [5] [] [] = runReadyLoop [] [] [] :=
  stale_pop_is_silent_noop [] [] [] 5 rfl

/-- C9: Event Bridge construction is one-shot: the first call to
`ScancodeStream::new` initializes the process-wide scancode queue and
succeeds, and any call finding the queue already initialized panics. -/
theorem scancode_stream_new_one_shot (s : KeyboardState) :
    (s.scancode_queue = none →
      ∃ s2, ScancodeStream.new s = some s2 ∧ s2.scancode_queue = some [] ∧
        ScancodeStream.new s2 = none) ∧
    (∀ q, s.scancode_queue = some q → ScancodeStream.new s = none) := by
  constructor
  · intro h
    refine ⟨{ s with scancode_queue := some [] }, ?_, rfl, rfl⟩
    simp [ScancodeStream.new, h]
  · intro q h
    simp [ScancodeStream.new, h]

theorem scancode_stream_new_one_shot_witness :
    ∃ s2, ScancodeStream.new { scancode_queue := none, waker := none } = some s2 ∧
      s2.scancode_queue = some [] ∧ ScancodeStream.new s2 = none :=
  (scancode_stream_new_one_shot { scancode_queue := none, waker := none }).1 rfl

/-- The invariant of C10: every id with a cached waker has an entry in the
task table. -/
def Executor.cacheInv (e : Executor) : Prop :=
  ∀ id ∈ e.waker_cache, (lookupA e.tasks id).isSome = true

/-- C10: the waker-cache keys are a subset of the task-table keys, and this
invariant is established by `Executor::new` and preserved by `spawn` and by
`run_ready_tasks` (a waker is cached only on first poll of a present task,
and both entries are removed together on completion). -/
theorem waker_cache_subset_invariant :
    Executor.cacheInv Executor.new ∧
    (∀ e task e2, Executor.cacheInv e → e.spawn task = some e2 →
      Executor.cacheInv e2) ∧
    (∀ e, Executor.cacheInv e → Executor.cacheInv e.run_ready_tasks) := by
  refine ⟨?_, ?_, ?_⟩
  · intro id hid
    exact absurd hid (List.not_mem_nil id)
  · intro e task e2 hinv hsp id hid
    unfold Executor.spawn at hsp
    by_cases hdup : (insertA e.tasks task.id task).1.isSome
    · simp [hdup] at hsp
    · cases hq : queuePush e.task_queue task.id with
      | none => simp [hdup, hq] at hsp
      | some q =>
        simp [hdup, hq] at hsp
        subst hsp
        simp only [insertA] at hid ⊢
        by_cases hid2 : task.id = id
        · simp [lookupA, hid2]
        · rw [show lookupA ((task.id, task) :: eraseA e.tasks task.id) id
              = lookupA (eraseA e.tasks task.id) id from by simp [lookupA, hid2]]
          rw [lookupA_eraseA_ne e.tasks task.id id (fun hh => hid2 hh.symm)]
          exact hinv id hid
  · intro e hinv
    intro id hid
    simp only [Executor.run_ready_tasks] at hid ⊢
    exact runReadyLoop_cache_subset e.task_queue e.tasks e.waker_cache hinv id hid

theorem waker_cache_subset_invariant_witness :
    Executor.cacheInv Executor.new.run_ready_tasks :=
  waker_cache_subset_invariant.2.2 Executor.new
    (fun id hid => absurd hid (List.not_mem_nil id))

/-- C6: saturation policies. Pushing a scancode into a full bridge queue
drops the newest event, leaves the queue unchanged at capacity, emits a
non-fatal diagnostic, wakes nobody and raises no error; a successful push
invokes the currently registered waker, if any; invoking a task waker when
the scheduler's ready queue is full panics. -/
theorem saturation_policy_bridge_vs_ready_queue
    (s : KeyboardState) (q : List Nat) (scancode : Nat) (task_id : Nat)
    (rq : List Nat) (hq : s.scancode_queue = some q) :
    (q.length = QUEUE_CAPACITY →
      add_scancode s scancode =
        { state := s,
          warning := some "WARNING: scancode queue full; dropping keyboard input",
          woken := none }) ∧
    (q.length < QUEUE_CAPACITY →
      add_scancode s scancode =
        { state := { scancode_queue := some (q ++ [scancode]), waker := none },
          warning := none, woken := s.waker }) ∧
    (rq.length = QUEUE_CAPACITY → TaskWaker.wake_task task_id rq = none) := by
  refine ⟨?_, ?_, ?_⟩
  · intro h
    simp [add_scancode, hq, queuePush, h]
  · intro h
    simp [add_scancode, hq, queuePush, h]
  · intro h
    simp [TaskWaker.wake_task, queuePush, h]

theorem saturation_policy_bridge_vs_ready_queue_witness :
    (add_scancode { scancode_queue := some (List.replicate 100 0), waker := some 9 } 11 =
      { state := { scancode_queue := some (List.replicate 100 0), waker := some 9 },
        warning := some "WARNING: scancode queue full; dropping keyboard input",
        woken := none }) ∧
    (add_scancode { scancode_queue := some [], waker := some 9 } 11 =
      { state := { scancode_queue := some [11], waker := none },
        warning := none, woken := some 9 }) ∧
    (TaskWaker.wake_task 3 (List.replicate 100 0) = none) :=
  ⟨(saturation_policy_bridge_vs_ready_queue
      { scancode_queue := some (List.replicate 100 0), waker := some 9 }
      (List.replicate 100 0) 11 3 (List.replicate 100 0) rfl).1 (by decide),
   (saturation_policy_bridge_vs_ready_queue
      { scancode_queue := some [], waker := some 9 }
      [] 11 3 (List.replicate 100 0) rfl).2.1 (by decide),
   (saturation_policy_bridge_vs_ready_queue
      { scancode_queue := some [], waker := some 9 }
      [] 11 3 (List.replicate 100 0) rfl).2.2 (by decide)⟩

/-- C1: `poll_next` of the scancode stream. A non-empty first pop returns
`Ready` immediately (registration untouched). Otherwise the context's waker
is registered and a second pop runs: if events arrived in the race window
(`mid`), the second pop catches the first one and the registration is taken
back out before returning `Ready`; if the second pop is also empty, the
result is `Pending` and the registration remains in place. -/
theorem poll_next_double_check_spec (s : KeyboardState) (q : List Nat)
    (w : Waker) (mid : List Nat)
    (hs : s.scancode_queue = some q) (hmid : mid.length ≤ QUEUE_CAPACITY) :
    (∀ scancode q2, q = scancode :: q2 →
      ScancodeStream.poll_next s w mid =
        some ({ s with scancode_queue := some q2 },
          PollResult.Ready (some scancode))) ∧
    (∀ scancode mid2, q = [] → mid = scancode :: mid2 →
      ScancodeStream.poll_next s w mid =
        some ({ scancode_queue := some mid2, waker := none },
          PollResult.Ready (some scancode))) ∧
    (q = [] → mid = [] →
      ScancodeStream.poll_next s w mid =
        some ({ scancode_queue := some [], waker := some w },
          PollResult.Pending)) := by
  refine ⟨?_, ?_, ?_⟩
  · intro scancode q2 h
    subst h
    simp [ScancodeStream.poll_next, hs, queuePop]
  · intro scancode mid2 h1 h2
    subst h1
    subst h2
    have hp : pushMany [] (scancode :: mid2) = scancode :: mid2 := by
      have := pushMany_of_le (scancode :: mid2) [] (by simpa using hmid)
      simpa using this
    simp [ScancodeStream.poll_next, hs, queuePop, hp]
  · intro h1 h2
    subst h1
    subst h2
    simp [ScancodeStream.poll_next, hs, queuePop, pushMany]

theorem poll_next_double_check_spec_witness :
    ScancodeStream.poll_next { scancode_queue := some [], waker := none } 5 [42] =
      some ({ scancode_queue := some [], waker := none },
        PollResult.Ready (some 42)) :=
  (poll_next_double_check_spec { scancode_queue := some [], waker := none }
    [] 5 [42] rfl (by decide)).2.1 42 [] rfl rfl

/-- C3: during a `run_ready_tasks` pass, a dequeued task whose poll returns
`Ready` is removed from the task table and the waker cache in that same
pass, is polled exactly once in the pass (later dequeues of its id find no
table entry and skip), and is never polled in any later pass (its id stays
absent from the table); a dequeued task whose poll returns `Pending` stays
in the task table (with its advanced state) for the rest of the pass. -/
theorem ready_task_removed_and_never_repolled
    (tasks : List (Nat × Task)) (restQueue cache : List Nat) (id : Nat)
    (t : Task) (hl : lookupA tasks id = some t) :
    ((t.future t.state).1 = PollRes.Ready →
      lookupA (runReadyLoop (id :: restQueue) tasks cache).tasks id = none ∧
      id ∉ (runReadyLoop (id :: restQueue) tasks cache).waker_cache ∧
      (logFor id (runReadyLoop (id :: restQueue) tasks cache).log).length = 1 ∧
      (∀ q2 c2,
        logFor id (runReadyLoop q2
          (runReadyLoop (id :: restQueue) tasks cache).tasks c2).log = [] ∧
        lookupA (runReadyLoop q2
          (runReadyLoop (id :: restQueue) tasks cache).tasks c2).tasks id
          = none)) ∧
    ((t.future t.state).1 = PollRes.Pending → id ∉ restQueue →
      lookupA (runReadyLoop (id :: restQueue) tasks cache).tasks id =
        some { t with state := (t.future t.state).2 }) := by
  rcases hfut : t.future t.state with ⟨res, s2⟩
  constructor
  · intro hready
    have hres : res = PollRes.Ready := hready
    subst hres
    simp only [runReadyLoop, hl, Task.poll, hfut]
    have ht2 : lookupA (eraseA tasks id) id = none := lookupA_eraseA_self tasks id
    have habs := runReadyLoop_absent restQueue (eraseA tasks id)
      (cacheErase (cacheInsert cache id) id) id ht2
    have hcache := runReadyLoop_absent_cache restQueue (eraseA tasks id)
      (cacheErase (cacheInsert cache id) id) id ht2 (by
        intro hmem
        exact ((mem_cacheErase _ _ _).mp hmem).2 rfl)
    refine ⟨habs.1, hcache, ?_, ?_⟩
    · have h2 := habs.2
      simp only [logFor] at h2 ⊢
      simp [List.filterMap_cons, h2]
    · intro q2 c2
      exact ⟨(runReadyLoop_absent q2 _ c2 id habs.1).2,
        (runReadyLoop_absent q2 _ c2 id habs.1).1⟩
  · intro hpend hnotin
    have hres : res = PollRes.Pending := hpend
    subst hres
    simp only [runReadyLoop, hl, Task.poll, hfut]
    have ht2 : lookupA (updateA tasks id { t with state := s2 }) id
        = some { t with state := s2 } :=
      lookupA_updateA_self tasks id t _ hl
    exact runReadyLoop_untouched restQueue
      (updateA tasks id { t with state := s2 }) (cacheInsert cache id) id _
      hnotin ht2

theorem ready_task_removed_and_never_repolled_witness :
    lookupA (runReadyLoop [3, 9] [(3, readyTask)] []).tasks 3 = none ∧
    3 ∉ (runReadyLoop [3, 9] [(3, readyTask)] []).waker_cache ∧
    (logFor 3 (runReadyLoop [3, 9] [(3, readyTask)] []).log).length = 1 ∧
    logFor 3 (runReadyLoop [3]
      (runReadyLoop [3, 9] [(3, readyTask)] []).tasks []).log = [] :=
  have h := (ready_task_removed_and_never_repolled [(3, readyTask)] [9] []
    3 readyTask rfl).1 rfl
  ⟨h.1, h.2.1, h.2.2.1, (h.2.2.2 [3] []).1⟩

/-- C7 (amended): if `wake()` is invoked twice in succession for a
still-pending task before the scheduler drains the ready queue (queue
`[id, id]`), then during the next `run_ready_tasks` pass the task is polled
at most once per queue entry (at most twice; duplicate entries are filtered
at pop time only once the task has completed and left the table — a
still-pending task is polled again for the duplicate entry), at most one of
those polls returns `Ready`, and if the first poll returns `Ready` the
duplicate entry is skipped, so the task is polled exactly once and is not
removed from the task table twice. -/
theorem duplicate_wake_poll_bound_amended
    (tasks : List (Nat × Task)) (cache : List Nat) (id : Nat) (t : Task)
    (hl : lookupA tasks id = some t) :
    (logFor id (runReadyLoop [id, id] tasks cache).log).length ≤ 2 ∧
    readyCount (logFor id (runReadyLoop [id, id] tasks cache).log) ≤ 1 ∧
    ((t.future t.state).1 = PollRes.Ready →
      (logFor id (runReadyLoop [id, id] tasks cache).log).length = 1) := by
  rcases hfut : t.future t.state with ⟨res1, s2⟩
  cases res1 with
  | Ready =>
    have ht2 : lookupA (eraseA tasks id) id = none := lookupA_eraseA_self tasks id
    simp only [runReadyLoop, hl, Task.poll, hfut, ht2]
    simp [logFor, readyCount]
  | Pending =>
    have ht2 : lookupA (updateA tasks id { t with state := s2 }) id
        = some { t with state := s2 } :=
      lookupA_updateA_self tasks id t _ hl
    rcases hfut2 : t.future s2 with ⟨res2, s3⟩
    cases res2 with
    | Ready =>
      simp only [runReadyLoop, hl, Task.poll, hfut, ht2, hfut2]
      simp [logFor, readyCount, hfut]
    | Pending =>
      simp only [runReadyLoop, hl, Task.poll, hfut, ht2, hfut2]
      simp [logFor, readyCount, hfut]

theorem duplicate_wake_poll_bound_amended_witness :
    (logFor 7 (runReadyLoop [7, 7] [(7, pendTask)] []).log).length ≤ 2 ∧
    readyCount (logFor 7 (runReadyLoop [7, 7] [(7, pendTask)] []).log) ≤ 1 ∧
    ((pendTask.future pendTask.state).1 = PollRes.Ready →
      (logFor 7 (runReadyLoop [7, 7] [(7, pendTask)] []).log).length = 1) :=
  duplicate_wake_poll_bound_amended [(7, pendTask)] [] 7 pendTask rfl

/-- C7 counterexample: a task that stays pending in one unchanged state,
woken twice (queue `[7, 7]`), is polled twice during the pass — the
duplicate ready-queue entry is not filtered while the task is still in the
task table — so it is polled more often than it has distinct pending
states, refuting the claim as stated. -/
theorem duplicate_wake_distinct_state_cex :
    logFor 7 (runReadyLoop [7, 7] [(7, pendTask)] []).log =
      [(0, PollRes.Pending), (0, PollRes.Pending)] ∧
    ¬((logFor 7 (runReadyLoop [7, 7] [(7, pendTask)] []).log).length ≤
      ((logFor 7 (runReadyLoop [7, 7] [(7, pendTask)] []).log).map
        Prod.fst).dedup.length) := by
  constructor
  · decide
  · decide

end RustOS
